import Mathlib

/-!
Verification of the voice-assistant orchestration core: budget ledger
(`core/budget_manager.py`), LLM fallback orchestrator
(`core/llm_orchestrator.py`), capability router (`core/mcp_router.py`) and
voice manager (`core/voice_manager.py`), shallowly embedded in Lean.
Monetary amounts and Python floats are modelled as rationals; Python dicts
keyed by service name are modelled as association lists in insertion order.

Rational arithmetic is performed through small executable wrappers
(`qadd`, `qmul`, `qlt`, ...) built on `mkRat`/`Rat.blt`, which the kernel
can evaluate on concrete inputs; they are proved equal to the Mathlib
operations below, and decimal price constants are written as `mkRat`
literals with their decimal value in a comment.
-/

set_option maxRecDepth 8000

/-! ## Executable rational arithmetic -/

/-- Executable addition on `ℚ` (equals `a + b`, see `qadd_eq`). -/
def qadd (a b : ℚ) : ℚ := mkRat (a.num * b.den + b.num * a.den) (a.den * b.den)

/-- Executable multiplication on `ℚ` (equals `a * b`, see `qmul_eq`). -/
def qmul (a b : ℚ) : ℚ := mkRat (a.num * b.num) (a.den * b.den)

/-- Executable strict comparison on `ℚ` (decides `a < b`, see `qlt_iff`). -/
def qlt (a b : ℚ) : Bool := Rat.blt a b

/-- Executable comparison on `ℚ` (decides `a ≤ b`, see `qle_iff`). -/
def qle (a b : ℚ) : Bool := !(Rat.blt b a)

/-- Executable absolute value on `ℚ`. -/
def qabs (q : ℚ) : ℚ := if Rat.blt q 0 then Rat.neg q else q

/-- Floor of a nonnegative rational (numerator divided by denominator). -/
def qfloorNN (q : ℚ) : ℤ := q.num / (q.den : ℤ)

theorem qadd_eq (a b : ℚ) : qadd a b = a + b := (Rat.add_def' a b).symm

theorem qmul_eq (a b : ℚ) : qmul a b = a * b := by
  rw [Rat.mul_def, Rat.normalize_eq_mkRat]; rfl

theorem qlt_iff (a b : ℚ) : qlt a b = true ↔ a < b := Iff.rfl

theorem qle_iff (a b : ℚ) : qle a b = true ↔ a ≤ b := by
  unfold qle
  constructor
  · intro h
    have hblt : Rat.blt b a = false := by simpa using h
    exact hblt
  · intro h
    have hblt : Rat.blt b a = false := h
    simp [hblt]

/-! ## Budget manager (`core/budget_manager.py`) -/

/-- Usage buckets for one service.  In-process the manager always inserts all
three period keys (`\x7b"daily": 0, "weekly": 0, "monthly": 0\x7d`), so the
three fields are total. -/
structure PeriodVals where
  daily : ℚ
  weekly : ℚ
  monthly : ℚ
  deriving Repr, DecidableEq

/-- Configured limits for one service.  A period key may be absent from the
limits dict (`if period in limits`), hence `Option`. -/
structure PeriodLims where
  daily : Option ℚ
  weekly : Option ℚ
  monthly : Option ℚ
  deriving Repr, DecidableEq

/-- The mutable state of `BudgetManager.budget_data`: usage and limits per
service plus the three `last_reset` markers. -/
structure BudgetState where
  usage : List (String × PeriodVals)
  limits : List (String × PeriodLims)
  lastDaily : String
  lastWeekly : String
  lastMonthly : String
  deriving Repr, DecidableEq

/-- The current wall-clock period keys (`%Y-%m-%d`, `%Y-W%U`, `%Y-%m`),
passed explicitly instead of reading `datetime.now()`. -/
structure NowKeys where
  day : String
  week : String
  month : String
  deriving Repr, DecidableEq

/-- First-match association-list lookup, the model of Python dict access. -/
def lookup {α : Type} : List (String × α) → String → Option α
  | [], _ => none
  | (k, v) :: rest, s => if k = s then some v else lookup rest s

/-- `BudgetManager.default_limits` (€1/6/25 openai, €0.75/4.50/15 claude,
€0.50/3/10 elevenlabs). -/
def default_limits : List (String × PeriodLims) :=
  [("openai", ⟨some 1, some 6, some 25⟩),
   ("claude", ⟨some (mkRat 3 4), some (mkRat 9 2), some 15⟩),
   ("elevenlabs", ⟨some (mkRat 1 2), some 3, some 10⟩)]

/-- Daily branch of `_check_and_reset_periods`: on a new day key, zero every
service's daily bucket and update the marker. -/
def reset_daily (now : NowKeys) (st : BudgetState) : BudgetState :=
  if st.lastDaily ≠ now.day then
    { st with
      usage := st.usage.map (fun e => (e.1, { e.2 with daily := 0 })),
      lastDaily := now.day }
  else st

/-- Weekly branch of `_check_and_reset_periods`. -/
def reset_weekly (now : NowKeys) (st : BudgetState) : BudgetState :=
  if st.lastWeekly ≠ now.week then
    { st with
      usage := st.usage.map (fun e => (e.1, { e.2 with weekly := 0 })),
      lastWeekly := now.week }
  else st

/-- Monthly branch of `_check_and_reset_periods`. -/
def reset_monthly (now : NowKeys) (st : BudgetState) : BudgetState :=
  if st.lastMonthly ≠ now.month then
    { st with
      usage := st.usage.map (fun e => (e.1, { e.2 with monthly := 0 })),
      lastMonthly := now.month }
  else st

/-- `_check_and_reset_periods`: the three period checks run in order
daily, weekly, monthly. -/
def check_and_reset (now : NowKeys) (st : BudgetState) : BudgetState :=
  reset_monthly now (reset_weekly now (reset_daily now st))

/-- The `if service not in self.budget_data["usage"]` insertion performed by
`can_afford` and `record_usage`; Python dicts append new keys at the end. -/
def insert_service (st : BudgetState) (s : String) : BudgetState :=
  if lookup st.usage s = none then
    { st with usage := st.usage ++ [(s, ⟨0, 0, 0⟩)] }
  else st

/-- Python `%.df` fixed-point formatting of a rational (round half up on the
exact rational; the source formats IEEE doubles, which agrees on all the
amounts exercised here). -/
def formatFixed (q : ℚ) (d : ℕ) : String :=
  let scaled : ℤ := qfloorNN (qadd (qmul (qabs q) (mkRat ((10 : ℤ) ^ d) 1)) (mkRat 1 2))
  let ip := scaled / ((10 : ℤ) ^ d)
  let fp := (scaled % ((10 : ℤ) ^ d)).toNat
  let fpStr := toString fp
  let fpPad := String.mk (List.replicate (d - fpStr.length) '0') ++ fpStr
  (if Rat.blt q 0 then "-" else "") ++ toString ip ++
    (if d = 0 then "" else "." ++ fpPad)

/-- The refusal message built by `can_afford`:
`f"\x7bservice\x7d \x7bperiod\x7d budget exceeded (\x7bcurrent_usage:.4f\x7d + \x7bestimated_cost:.4f\x7d > \x7blimits[period]:.2f\x7d)"`. -/
def afford_msg (service period : String) (cur est lim : ℚ) : String :=
  service ++ " " ++ period ++ " budget exceeded (" ++ formatFixed cur 4 ++
    " + " ++ formatFixed est 4 ++ " > " ++ formatFixed lim 2 ++ ")"

/-- One iteration of `can_afford`'s period loop: `none` when the period is not
configured or passes, `some msg` when
`current_usage + estimated_cost > limit`. -/
def checkPeriod (service period : String) (cur est : ℚ) (lim : Option ℚ) :
    Option String :=
  match lim with
  | none => none
  | some l =>
    if qlt l (qadd cur est) then some (afford_msg service period cur est l)
    else none

/-- `BudgetManager.can_afford`: reset periods, ensure the service has a usage
record, then check daily, weekly, monthly in order against the configured
limits (falling back to `default_limits`), returning the first failure. -/
def can_afford (now : NowKeys) (s : String) (est : ℚ) (st : BudgetState) :
    (Bool × String) × BudgetState :=
  let st1 := insert_service (check_and_reset now st) s
  let u := (lookup st1.usage s).getD ⟨0, 0, 0⟩
  let lims := (lookup st1.limits s).getD ((lookup default_limits s).getD ⟨none, none, none⟩)
  match checkPeriod s "daily" u.daily est lims.daily with
  | some msg => ((false, msg), st1)
  | none =>
    match checkPeriod s "weekly" u.weekly est lims.weekly with
    | some msg => ((false, msg), st1)
    | none =>
      match checkPeriod s "monthly" u.monthly est lims.monthly with
      | some msg => ((false, msg), st1)
      | none => ((true, "OK"), st1)

/-- `BudgetManager.record_usage`: reset periods, ensure the service record,
then add the cost to all three period buckets (the on-disk save is I/O and
the in-memory state stays authoritative). -/
def record_usage (now : NowKeys) (s : String) (cost : ℚ) (st : BudgetState) :
    BudgetState :=
  let st1 := insert_service (check_and_reset now st) s
  { st1 with
    usage := st1.usage.map (fun e =>
      if e.1 = s then
        (e.1, ⟨qadd e.2.daily cost, qadd e.2.weekly cost, qadd e.2.monthly cost⟩)
      else e) }

/-- Python `round(cost, 6)` for the nonnegative costs produced by
`calculate_cost` (round half up on the exact rational; the source's half-even
tie-break on doubles is never hit by the amounts exercised here). -/
def round6 (q : ℚ) : ℚ :=
  mkRat (qfloorNN (qadd (qmul q (mkRat 1000000 1)) (mkRat 1 2))) 1000000

/-- Per-model `(input, output)` token prices of `self.costs["openai"]`. -/
def openai_costs (model : String) : Option (ℚ × ℚ) :=
  if model = "gpt-4.1" then some (mkRat 15 1000000, mkRat 60 1000000)  -- 0.015/1000, 0.060/1000
  else if model = "gpt-4o" then some (mkRat 5 1000000, mkRat 15 1000000)  -- 0.005/1000, 0.015/1000
  else if model = "gpt-4o-mini" then some (mkRat 15 10000000, mkRat 6 1000000)  -- 0.0015/1000, 0.006/1000
  else if model = "gpt-4-turbo" then some (mkRat 1 100000, mkRat 3 100000)  -- 0.01/1000, 0.03/1000
  else if model = "gpt-4" then some (mkRat 3 100000, mkRat 6 100000)  -- 0.03/1000, 0.06/1000
  else if model = "gpt-3.5-turbo" then some (mkRat 15 10000000, mkRat 2 1000000)  -- 0.0015/1000, 0.002/1000
  else none

/-- Per-model token prices of `self.costs["claude"]`. -/
def claude_costs (model : String) : Option (ℚ × ℚ) :=
  if model = "claude-3-sonnet" then some (mkRat 3 1000000, mkRat 15 1000000)  -- 0.003/1000, 0.015/1000
  else if model = "claude-3-haiku" then some (mkRat 25 100000000, mkRat 125 100000000)  -- 0.00025/1000, 0.00125/1000
  else none

/-- Per-character prices of `self.costs["elevenlabs"]`. -/
def elevenlabs_costs (model : String) : Option ℚ :=
  if model = "standard" then some (mkRat 18 100000)  -- 0.18/1000
  else if model = "premium" then some (mkRat 3 10000)  -- 0.30/1000
  else none

/-- `BudgetManager.calculate_cost`: token-priced for openai/claude,
character-priced for elevenlabs, `0` for unknown services or models, rounded
to six decimals. -/
def calculate_cost (service model : String) (input_tokens output_tokens : ℕ)
    (characters : ℕ) : ℚ :=
  if service = "openai" then
    match openai_costs model with
    | some p => round6 (qadd (qmul (mkRat input_tokens 1) p.1) (qmul (mkRat output_tokens 1) p.2))
    | none => 0
  else if service = "claude" then
    match claude_costs model with
    | some p => round6 (qadd (qmul (mkRat input_tokens 1) p.1) (qmul (mkRat output_tokens 1) p.2))
    | none => 0
  else if service = "elevenlabs" then
    match elevenlabs_costs model with
    | some p => round6 (qmul (mkRat characters 1) p)
    | none => 0
  else 0

/-- The effective usage buckets for a service (absent services read as zero,
matching `usage.get(period, 0)` after the zero-initialised insertion). -/
def usageVal (st : BudgetState) (s : String) : PeriodVals :=
  (lookup st.usage s).getD ⟨0, 0, 0⟩

/-- The effective limits dict for a service, including the
`limits.get(service, default_limits.get(service, \x7b\x7d))` fallback. -/
def limsFor (st : BudgetState) (s : String) : PeriodLims :=
  (lookup st.limits s).getD ((lookup default_limits s).getD ⟨none, none, none⟩)

/-- The period names iterated by `can_afford`, in source order. -/
def configuredPeriods : List String := ["daily", "weekly", "monthly"]

/-- Bucket selector by period name. -/
def periodVal (p : String) (u : PeriodVals) : ℚ :=
  if p = "daily" then u.daily else if p = "weekly" then u.weekly else u.monthly

/-- Limit selector by period name. -/
def limGet (p : String) (l : PeriodLims) : Option ℚ :=
  if p = "daily" then l.daily else if p = "weekly" then l.weekly else l.monthly

/-! ## LLM orchestrator (`core/llm_orchestrator.py`) -/

/-- A chat message `\x7b"role": ..., "content": ...\x7d`. -/
structure Message where
  role : String
  content : String
  deriving Repr, DecidableEq

/-- `_estimate_tokens`: rough token estimation, 4 characters per token. -/
def estimate_tokens (text : String) : ℕ := max 1 (text.length / 4)

/-- Python `str(msg)` on a two-key message dict, as fed to
`_estimate_tokens` by `_compress_context` (contents here never need
`repr` escaping). -/
def pyStr (m : Message) : String :=
  "\x7b\x27role\x27: \x27" ++ m.role ++ "\x27, \x27content\x27: \x27" ++ m.content ++ "\x27\x7d"

/-- Estimated tokens of one message as `_compress_context` counts them. -/
def tokenOf (m : Message) : ℕ := estimate_tokens (pyStr m)

/-- Estimated tokens of a message list (`sum(self._estimate_tokens(str(msg)) ...)`). -/
def tokenSum (l : List Message) : ℕ := (l.map tokenOf).sum

/-- Python `list.insert` with a possibly negative index: negative indices
count from the end and clamp at 0, positive ones clamp at the length. -/
def pyInsert {α : Type} (l : List α) (i : ℤ) (a : α) : List α :=
  let p : ℕ := if i < 0 then ((l.length : ℤ) + i).toNat else min i.toNat l.length
  l.take p ++ a :: l.drop p

/-- The synthetic compression note inserted by `_compress_context`. -/
def summary_msg : Message :=
  ⟨"system",
   "[Previous conversation context compressed. Continuing conversation with essential context preserved.]"⟩

/-- The `for msg in reversed(messages)` loop of `_compress_context`: keep each
message whose estimated tokens fit the remaining budget, inserting it at
Python index `-len([m for m in compressed if m.get("role") != "system"])`,
and stop at the first message that does not fit. -/
def keepRecent : List Message → ℤ → List Message → List Message
  | [], _, compressed => compressed
  | m :: ms, remaining, compressed =>
    if (tokenOf m : ℤ) ≤ remaining then
      keepRecent ms (remaining - (tokenOf m : ℤ))
        (pyInsert compressed (-(compressed.countP (fun x => x.role != "system") : ℤ)) m)
    else compressed

/-- The tail of `_compress_context` after the system-head split:
`compressed0` is `[system head]` or `[]`, `rest` the remaining messages
(the reassigned `messages` of the source).  Walk `reversed(rest)` keeping
what fits `maxLen` minus the head's tokens, then append the synthetic
summary note when the kept list is shorter than the
`len(messages) + bonus` bound computed by the source. -/
def compress_rest (maxLen : ℤ) (compressed0 rest : List Message) : List Message :=
  let remaining : ℤ := maxLen - (tokenSum compressed0 : ℤ)
  let compressed1 := keepRecent rest.reverse remaining compressed0
  let bonus : ℕ :=
    match rest.head? with
    | some r0 => if r0.role = "system" then 1 else 0
    | none => 0
  if compressed1.length < rest.length + bonus then
    match compressed1 with
    | c0 :: _ =>
      if c0.role = "system" then pyInsert compressed1 1 summary_msg
      else pyInsert compressed1 0 summary_msg
    | [] => pyInsert compressed1 0 summary_msg
  else compressed1

/-- `_compress_context`: return short histories unchanged; otherwise split
off a leading system message and compress the rest. -/
def compress_context (maxLen : ℤ) (messages : List Message) : List Message :=
  match messages with
  | [] => []
  | m0 :: tl =>
    if (tokenSum (m0 :: tl) : ℤ) ≤ maxLen then m0 :: tl
    else if m0.role = "system" then compress_rest maxLen [m0] tl
    else compress_rest maxLen [] (m0 :: tl)

/-- `self.emergency_responses`. -/
def emergency_responses : List String :=
  ["I\x27m experiencing technical difficulties, Sir. My systems are temporarily limited.",
   "My apologies, Sir. I\x27m operating in emergency mode with reduced capabilities.",
   "Systems are currently constrained, Sir. I\x27ll provide basic assistance.",
   "Technical limitations detected, Sir. Running on backup protocols.",
   "I\x27m in conservation mode, Sir. How may I assist with essential tasks?"]

/-- Whether `needle` is a leading segment of `hay`. -/
def leadsList (needle hay : List Char) : Bool :=
  match needle, hay with
  | [], _ => true
  | _ :: _, [] => false
  | a :: as, b :: bs => a = b && leadsList as bs

/-- Whether `needle` occurs contiguously inside `hay`. -/
def substringOf (needle hay : List Char) : Bool :=
  match hay with
  | [] => needle.isEmpty
  | _ :: rest => leadsList needle hay || substringOf needle rest

/-- Python `any(word in user_lower for word in words)`: substring search. -/
def containsAny (text : String) (words : List String) : Bool :=
  words.any (fun w => substringOf w.toList text.toList)

/-- `_get_emergency_response`: keyword matching over the lowered input; the
wall-clock time string and the `random.choice` index are passed explicitly. -/
def get_emergency_response (nowTime : String) (choice : ℕ) (user_input : String) :
    String :=
  let ul := user_input.toLower
  if containsAny ul ["time", "clock", "hour"] then
    "The current time is " ++ nowTime ++ ", Sir."
  else if containsAny ul ["weather", "temperature"] then
    "I\x27m unable to check the weather in emergency mode, Sir. Please try again later."
  else if containsAny ul ["hello", "hi", "hey"] then
    "Hello, Sir. I\x27m operating in emergency mode with limited capabilities."
  else if containsAny ul ["thank", "thanks"] then
    "You\x27re welcome, Sir."
  else if containsAny ul ["goodbye", "bye", "exit"] then
    "Goodbye, Sir. I hope my systems will be fully operational soon."
  else
    (emergency_responses.get? (choice % emergency_responses.length)).getD ""

/-- One entry of `self.llm_chain`. -/
structure LLMConfig where
  name : String
  models : List String
  available : Bool
  cost_tier : String
  deriving Repr, DecidableEq

/-- `self.llm_chain`, parameterised by the three availability probes
(`OPENAI_API_KEY`, `ANTHROPIC_API_KEY`, the local ollama check); the
emergency entry is hardcoded available. -/
def llm_chain (openaiAvail claudeAvail llamaAvail : Bool) : List LLMConfig :=
  [⟨"openai", ["gpt-4", "gpt-3.5-turbo"], openaiAvail, "premium"⟩,
   ⟨"claude", ["claude-3-sonnet", "claude-3-haiku"], claudeAvail, "mid"⟩,
   ⟨"llama", ["llama-7b", "llama-13b"], llamaAvail, "free"⟩,
   ⟨"emergency", ["hardcoded"], true, "free"⟩]

/-- The outcome of one provider call, abstracting `_call_openai`,
`_call_claude` and `_call_llama` (including their internal budget gating):
`none` models a raised exception, `some (response, cost)` a success. -/
def LLMOracle : Type := String → String → List Message → Option (String × ℚ)

/-- The `if llm_name == ... elif ...` dispatch inside `get_response`'s model
loop: emergency always succeeds with cost 0; the three real providers defer
to the oracle; an unknown name raises (`response` unbound). -/
def dispatch (call : LLMOracle) (messages : List Message) (emerg : String)
    (name model : String) : Option (String × ℚ) :=
  if name = "openai" ∨ name = "claude" ∨ name = "llama" then call name model messages
  else if name = "emergency" then some (emerg, 0)
  else none

/-- The inner `for model in models` loop: return the first model that
succeeds together with the list of `(provider, model)` attempts made. -/
def tryModels (call : LLMOracle) (messages : List Message) (emerg : String)
    (name : String) : List String → Option (String × ℚ × String) × List (String × String)
  | [] => (none, [])
  | m :: rest =>
    match dispatch call messages emerg name m with
    | some rc => (some (rc.1, rc.2, m), [(name, m)])
    | none =>
      let t := tryModels call messages emerg name rest
      (t.1, (name, m) :: t.2)

/-- The outer `for llm_config in self.llm_chain` loop: skip unavailable
providers, try each available provider's models in order, stop at the first
success; also returns the attempt trace. -/
def tryChain (call : LLMOracle) (messages : List Message) (emerg : String) :
    List LLMConfig → Option (String × ℚ × String × String) × List (String × String)
  | [] => (none, [])
  | cfg :: rest =>
    if cfg.available = false then tryChain call messages emerg rest
    else
      match tryModels call messages emerg cfg.name cfg.models with
      | (some r, tr) => (some (r.1, r.2.1, cfg.name, r.2.2), tr)
      | (none, tr) =>
        let t := tryChain call messages emerg rest
        (t.1, tr ++ t.2)

/-- The result dict of `get_response`. -/
structure OrchestratorResult where
  response : String
  source : String
  cost : ℚ
  model : String
  context_compressed : Bool
  success : Bool
  error : Option String
  deriving Repr, DecidableEq

/-- Step 1 of `get_response`: optional system instruction, compressed
context, then the new user input. -/
def build_messages (system_message : Option String) (maxLen : ℤ)
    (history : List Message) (user_input : String) : List Message :=
  let sysMsgs : List Message :=
    match system_message with
    | some sm => [⟨"system", sm⟩]
    | none => []
  sysMsgs ++ compress_context maxLen history ++ [⟨"user", user_input⟩]

/-- `LLMOrchestrator.get_response`: build the message set (optional system
instruction, compressed context, the user input), traverse the chain, and on
total failure fall back to an emergency response.  Returns the result, the
updated `context_history` (appended on success, trimmed to the last 16
entries past 20), and the `(provider, model)` attempt trace. -/
def get_response (call : LLMOracle) (chain : List LLMConfig)
    (nowTime : String) (choice : ℕ) (maxLen : ℤ) (history : List Message)
    (system_message : Option String) (user_input : String) :
    OrchestratorResult × List Message × List (String × String) :=
  let messages := build_messages system_message maxLen history user_input
  let context_was_compressed :=
    (compress_context maxLen history).length < history.length
  let emerg := get_emergency_response nowTime choice user_input
  match tryChain call messages emerg chain with
  | (some r, trace) =>
    let h1 := history ++ [⟨"user", user_input⟩, ⟨"assistant", r.1⟩]
    let h2 := if h1.length > 20 then h1.drop (h1.length - 16) else h1
    (⟨r.1, r.2.2.1, r.2.1, r.2.2.2, context_was_compressed, true, none⟩, h2, trace)
  | (none, trace) =>
    (⟨emerg, "emergency_fallback", 0, "hardcoded", false, false, some "All LLMs failed"⟩,
     history, trace)

/-- The `(provider, model)` pairs `get_response` would attempt in order when
nothing succeeds: the statically configured chain filtered by availability
only (spec §4.4 step 6). -/
def attemptSequence (chain : List LLMConfig) : List (String × String) :=
  ((chain.filter (fun cfg => cfg.available)).map
    (fun cfg => cfg.models.map (fun m => (cfg.name, m)))).flatten

/-- Truncate a list at its first element satisfying `p` (inclusively). -/
def takeUntilSuccess {α : Type} (p : α → Bool) : List α → List α
  | [] => []
  | a :: rest => if p a then [a] else a :: takeUntilSuccess p rest

/-- Whether one `(provider, model)` attempt succeeds. -/
def succAttempt (call : LLMOracle) (messages : List Message) (emerg : String)
    (a : String × String) : Bool :=
  (dispatch call messages emerg a.1 a.2).isSome

/-- The estimated cost computed at the top of `_call_openai`: input tokens
are summed over the message contents and the output is guessed as half the
input. -/
def estimated_openai_cost (messages : List Message) (model : String) : ℚ :=
  let input_tokens := (messages.map (fun m => estimate_tokens m.content)).sum
  calculate_cost "openai" model input_tokens (input_tokens / 2) 0

/-- `_call_openai`, with the network call abstracted by `api` (`none` models a
raised exception).  Returns the result, the final budget state, and the
number of network calls attempted.  A budget denial raises before any
network call; a network failure records no usage. -/
def call_openai (api : String → List Message → Option String) (now : NowKeys)
    (messages : List Message) (model : String) (st : BudgetState) :
    Option (String × ℚ) × BudgetState × ℕ :=
  let input_tokens := (messages.map (fun m => estimate_tokens m.content)).sum
  let est := estimated_openai_cost messages model
  let r := can_afford now "openai" est st
  if r.1.1 = false then (none, r.2, 0)
  else
    match api model messages with
    | none => (none, r.2, 1)
    | some result =>
      let output_tokens := estimate_tokens result
      let actual := calculate_cost "openai" model input_tokens output_tokens 0
      (some (result, actual), record_usage now "openai" actual r.2, 1)

/-- The estimated cost computed by `_call_claude` (summed over all messages,
including system ones). -/
def estimated_claude_cost (messages : List Message) (model : String) : ℚ :=
  let input_tokens := (messages.map (fun m => estimate_tokens m.content)).sum
  calculate_cost "claude" model input_tokens (input_tokens / 2) 0

/-- `_call_claude`: system messages are concatenated into one system string,
the rest become the user message list; budget gating and usage recording
mirror `_call_openai` on the `claude` service. -/
def call_claude (api : String → String → List Message → Option String)
    (now : NowKeys) (messages : List Message) (model : String) (st : BudgetState) :
    Option (String × ℚ) × BudgetState × ℕ :=
  let system_msg := String.join
    ((messages.filter (fun m => m.role = "system")).map (fun m => m.content ++ "\n"))
  let user_messages := messages.filter (fun m => m.role != "system")
  let input_tokens := (messages.map (fun m => estimate_tokens m.content)).sum
  let est := estimated_claude_cost messages model
  let r := can_afford now "claude" est st
  if r.1.1 = false then (none, r.2, 0)
  else
    match api model system_msg user_messages with
    | none => (none, r.2, 1)
    | some result =>
      let output_tokens := estimate_tokens result
      let actual := calculate_cost "claude" model input_tokens output_tokens 0
      (some (result, actual), record_usage now "claude" actual r.2, 1)

/-! ## MCP router (`core/mcp_router.py`) -/

/-- Executable negation on `ℚ`. -/
def qneg (q : ℚ) : ℚ := Rat.neg q

/-- Executable inverse on `ℚ` (0 maps to 0). -/
def qinv (q : ℚ) : ℚ := mkRat (q.num.sign * q.den) q.num.natAbs

/-- Executable division on `ℚ`. -/
def qdiv (a b : ℚ) : ℚ := qmul a (qinv b)

/-- The routing-relevant state of an `MCPAgent` (endpoint, auth token and
request counters do not enter the candidate ordering). -/
structure MCPAgent where
  name : String
  priority : ℤ
  is_healthy : Bool
  success_rate : ℚ
  response_times : List ℚ
  deriving Repr, DecidableEq

/-- `MCPAgent.get_avg_response_time`: mean of the recorded response times,
zero when none are recorded. -/
def get_avg_response_time (a : MCPAgent) : ℚ :=
  if a.response_times.isEmpty then 0
  else qdiv (a.response_times.foldl qadd 0) (mkRat a.response_times.length 1)

/-- The sort key `lambda x: (x.priority, -x.success_rate, x.get_avg_response_time())`
as a lexicographic order: `a` may come before `b` iff priority is smaller, or
equal priority and success rate larger, or both equal and average response
time not larger. -/
def keyLe (a b : MCPAgent) : Prop :=
  a.priority < b.priority ∨
    (a.priority = b.priority ∧
      (b.success_rate < a.success_rate ∨
        (a.success_rate = b.success_rate ∧
          get_avg_response_time a ≤ get_avg_response_time b)))

instance decKeyLe : DecidableRel keyLe := fun a b => by
  unfold keyLe; infer_instance

/-- `_get_agents_for_capability`: look up the registered names for the
capability, resolve them against the agent registry, keep the healthy ones
and sort by `keyLe` (Python's stable `list.sort`, modelled by the stable
`List.insertionSort`). -/
def get_agents_for_capability (capability_map : List (String × List String))
    (agents : List (String × MCPAgent)) (capability : String) : List MCPAgent :=
  let agent_names := (lookup capability_map capability).getD []
  let resolved := agent_names.filterMap (fun n => lookup agents n)
  let healthy := resolved.filter (fun a => a.is_healthy)
  List.insertionSort keyLe healthy

/-- Healthy resolved candidates for a capability, before sorting. -/
def healthyFor (capability_map : List (String × List String))
    (agents : List (String × MCPAgent)) (capability : String) : List MCPAgent :=
  (((lookup capability_map capability).getD []).filterMap
    (fun n => lookup agents n)).filter (fun a => a.is_healthy)

/-- Tokens of the restricted arithmetic language reachable through the
calculator's character filter. -/
inductive CalcTok where
  | num (v : ℚ)
  | plus
  | minus
  | star
  | slash
  | dstar
  | dslash
  | lparen
  | rparen
  deriving Repr, DecidableEq

/-- Numeric value of a digit character. -/
def digitVal (c : Char) : ℕ := c.toNat - '0'.toNat

/-- Parse one maximal run of digits and dots as a Python numeric literal:
it must contain at least one digit and at most one dot (runs like `1.2.3`
are a syntax error in Python too and map to `none`). -/
def parseNumChars (cs : List Char) : Option ℚ :=
  if cs.count '.' > 1 then none
  else if cs.all (fun c => c = '.') then none
  else
    let intPart := cs.takeWhile (fun c => c ≠ '.')
    let fracPart := (cs.dropWhile (fun c => c ≠ '.')).drop 1
    let iv : ℕ := intPart.foldl (fun acc c => 10 * acc + digitVal c) 0
    let fv : ℕ := fracPart.foldl (fun acc c => 10 * acc + digitVal c) 0
    some (qadd (mkRat iv 1) (mkRat fv ((10 : ℕ) ^ fracPart.length)))

/-- Fuel-indexed tokenizer over the allowed character set: spaces are
skipped, `**` and `//` are two-character operators, digit/dot runs become
numbers; anything else fails. -/
def tokenizeF : ℕ → List Char → Option (List CalcTok)
  | 0, _ => none
  | _ + 1, [] => some []
  | fuel + 1, c :: cs =>
    if c = ' ' then tokenizeF fuel cs
    else if c = '+' then (tokenizeF fuel cs).map (CalcTok.plus :: ·)
    else if c = '-' then (tokenizeF fuel cs).map (CalcTok.minus :: ·)
    else if c = '(' then (tokenizeF fuel cs).map (CalcTok.lparen :: ·)
    else if c = ')' then (tokenizeF fuel cs).map (CalcTok.rparen :: ·)
    else if c = '*' then
      match cs with
      | '*' :: cs2 => (tokenizeF fuel cs2).map (CalcTok.dstar :: ·)
      | _ => (tokenizeF fuel cs).map (CalcTok.star :: ·)
    else if c = '/' then
      match cs with
      | '/' :: cs2 => (tokenizeF fuel cs2).map (CalcTok.dslash :: ·)
      | _ => (tokenizeF fuel cs).map (CalcTok.slash :: ·)
    else if c.isDigit ∨ c = '.' then
      let run := (c :: cs).takeWhile (fun x => x.isDigit || x = '.')
      let rest := (c :: cs).dropWhile (fun x => x.isDigit || x = '.')
      match parseNumChars run with
      | some v => (tokenizeF fuel rest).map (CalcTok.num v :: ·)
      | none => none
    else none

/-- Executable integer power on `ℚ`. -/
def qpowNat (q : ℚ) : ℕ → ℚ
  | 0 => 1
  | n + 1 => qmul q (qpowNat q n)

/-- Python `**` restricted to integer exponents (a fractional exponent would
produce an irrational float and is outside this model); `0 ** negative`
raises. -/
def qpow (a b : ℚ) : Option ℚ :=
  if b.den = 1 then
    match b.num with
    | Int.ofNat n => some (qpowNat a n)
    | Int.negSucc n => if a.num = 0 then none else some (qinv (qpowNat a (n + 1)))
  else none

/-- Python floor (`math.floor` semantics, used by `//`). -/
def qfloor (q : ℚ) : ℤ := Int.fdiv q.num q.den

mutual

/-- Recursive-descent evaluator for the Python expression grammar reachable
through the calculator's character filter, with precedence
`+,- < *,/,// < unary +,- < **` and `**` right-associative; arithmetic
errors (division by zero) yield `none` like the `except` branch. -/
def parseExpr : ℕ → List CalcTok → Option (ℚ × List CalcTok)
  | 0, _ => none
  | fuel + 1, toks =>
    match parseTerm fuel toks with
    | none => none
    | some vt => parseExprLoop fuel vt.1 vt.2

/-- Left-associated `+`/`-` chain. -/
def parseExprLoop : ℕ → ℚ → List CalcTok → Option (ℚ × List CalcTok)
  | 0, _, _ => none
  | fuel + 1, acc, CalcTok.plus :: rest =>
    match parseTerm fuel rest with
    | none => none
    | some vt => parseExprLoop fuel (qadd acc vt.1) vt.2
  | fuel + 1, acc, CalcTok.minus :: rest =>
    match parseTerm fuel rest with
    | none => none
    | some vt => parseExprLoop fuel (qadd acc (qneg vt.1)) vt.2
  | _ + 1, acc, toks => some (acc, toks)

/-- A multiplicative term. -/
def parseTerm : ℕ → List CalcTok → Option (ℚ × List CalcTok)
  | 0, _ => none
  | fuel + 1, toks =>
    match parseUnary fuel toks with
    | none => none
    | some vt => parseTermLoop fuel vt.1 vt.2

/-- Left-associated `*`/`/`/`//` chain. -/
def parseTermLoop : ℕ → ℚ → List CalcTok → Option (ℚ × List CalcTok)
  | 0, _, _ => none
  | fuel + 1, acc, CalcTok.star :: rest =>
    match parseUnary fuel rest with
    | none => none
    | some vt => parseTermLoop fuel (qmul acc vt.1) vt.2
  | fuel + 1, acc, CalcTok.slash :: rest =>
    match parseUnary fuel rest with
    | none => none
    | some vt =>
      if vt.1.num = 0 then none
      else parseTermLoop fuel (qdiv acc vt.1) vt.2
  | fuel + 1, acc, CalcTok.dslash :: rest =>
    match parseUnary fuel rest with
    | none => none
    | some vt =>
      if vt.1.num = 0 then none
      else parseTermLoop fuel (mkRat (qfloor (qdiv acc vt.1)) 1) vt.2
  | _ + 1, acc, toks => some (acc, toks)

/-- Unary `+`/`-` (binding looser than `**` on the left, as in Python). -/
def parseUnary : ℕ → List CalcTok → Option (ℚ × List CalcTok)
  | 0, _ => none
  | fuel + 1, CalcTok.plus :: rest => parseUnary fuel rest
  | fuel + 1, CalcTok.minus :: rest =>
    match parseUnary fuel rest with
    | none => none
    | some vt => some (qneg vt.1, vt.2)
  | fuel + 1, toks => parsePow fuel toks

/-- A power: an atom optionally raised to a unary expression. -/
def parsePow : ℕ → List CalcTok → Option (ℚ × List CalcTok)
  | 0, _ => none
  | fuel + 1, toks =>
    match parseAtom fuel toks with
    | none => none
    | some vt =>
      match vt.2 with
      | CalcTok.dstar :: rest =>
        match parseUnary fuel rest with
        | none => none
        | some et =>
          match qpow vt.1 et.1 with
          | none => none
          | some v => some (v, et.2)
      | _ => some (vt.1, vt.2)

/-- A number or a parenthesised expression. -/
def parseAtom : ℕ → List CalcTok → Option (ℚ × List CalcTok)
  | 0, _ => none
  | _ + 1, CalcTok.num v :: rest => some (v, rest)
  | fuel + 1, CalcTok.lparen :: rest =>
    match parseExpr fuel rest with
    | none => none
    | some vt =>
      match vt.2 with
      | CalcTok.rparen :: rest2 => some (vt.1, rest2)
      | _ => none
  | _ + 1, _ => none

end

/-- Model of Python `eval` on expressions that pass the calculator's
character filter: tokenize, parse a full expression, and require all input
consumed. -/
def pyEval (s : String) : Option ℚ :=
  match tokenizeF (s.length + 1) s.toList with
  | none => none
  | some toks =>
    match parseExpr (4 * toks.length + 8) toks with
    | some vt => if vt.2.isEmpty then some vt.1 else none
    | none => none

/-- Result dict of `_handle_calculator_request`. -/
structure CalcResult where
  success : Bool
  result : Option ℚ
  error : Option String
  deriving Repr, DecidableEq

/-- `allowed_chars = set("0123456789+-*/.() ")`. -/
def allowed_chars : List Char := "0123456789+-*/.() ".toList

/-- `_handle_calculator_request` for a present `expression` param: reject the
empty string, evaluate only when every character is allowed, otherwise
reject as invalid.  The second component records whether `eval` was
invoked. -/
def handle_calculator_request (expression : String) : CalcResult × Bool :=
  if expression = "" then (⟨false, none, some "No expression provided"⟩, false)
  else if expression.toList.all (fun c => allowed_chars.contains c) then
    match pyEval expression with
    | some v => (⟨true, some v, none⟩, true)
    | none => (⟨false, none, some "Calculation error"⟩, true)
  else (⟨false, none, some "Invalid expression"⟩, false)

/-! ## Voice manager (`core/voice_manager.py`) -/

/-- The whitespace characters stripped by Python `str.strip()` for the ASCII
inputs in scope. -/
def pyIsSpace (c : Char) : Bool :=
  c = ' ' || c = '\t' || c = '\n' || c = '\r' || c = '\x0b' || c = '\x0c'

/-- Python `text.strip()`. -/
def pyStrip (s : String) : String :=
  String.mk (((s.toList.dropWhile pyIsSpace).reverse.dropWhile pyIsSpace).reverse)

/-- One entry of `self.voice_tiers` (the `setup_func` is initialization-time
only). -/
structure VoiceTier where
  name : String
  available : Bool
  cost_per_char : ℚ
  quality : String
  deriving Repr, DecidableEq

/-- `self.voice_tiers`, parameterised by the four availability probes; the
`text_only` tier is hardcoded available. -/
def voice_tiers (elevenAvail edgeAvail gttsAvail pyttsxAvail : Bool) : List VoiceTier :=
  [⟨"elevenlabs", elevenAvail, mkRat 18 100000, "premium"⟩,  -- 0.18/1000
   ⟨"edge_tts", edgeAvail, 0, "good"⟩,
   ⟨"gtts", gttsAvail, 0, "decent"⟩,
   ⟨"pyttsx3", pyttsxAvail, 0, "basic"⟩,
   ⟨"text_only", true, 0, "fallback"⟩]

/-- Result dict of `VoiceManager.speak` (keys absent in the source dict are
`none`/zero here). -/
structure SpeakResult where
  success : Bool
  tier_used : Option String
  cost : ℚ
  fallback_count : ℕ
  quality : Option String
  error : Option String
  deriving Repr, DecidableEq

/-- Outcome of one tier's synthesis attempt, abstracting `_speak_elevenlabs`
etc.: given the tier name and the budget state, report success and the
updated state (only the elevenlabs path touches the budget). -/
def VoiceOracle : Type := String → BudgetState → Bool × BudgetState

/-- The `for tier in tiers_to_try` loop of `speak`: skip unavailable tiers,
`text_only` prints and always succeeds, other tiers defer to the oracle;
on success the elevenlabs tier is billed per character.  Also returns the
final budget state and the list of tier names attempted. -/
def voiceLoop (tryTier : VoiceOracle) (text : String) :
    List VoiceTier → ℕ → BudgetState → List String →
    SpeakResult × BudgetState × List String
  | [], fc, st, attempted =>
    (⟨false, some "text_only", 0, fc, none, some "All voice tiers failed"⟩, st, attempted)
  | tier :: rest, fc, st, attempted =>
    if tier.available = false then voiceLoop tryTier text rest (fc + 1) st attempted
    else
      let attempted2 := attempted ++ [tier.name]
      if tier.name = "text_only" then
        (⟨true, some tier.name, 0, fc, some tier.quality, none⟩, st, attempted2)
      else
        let r := tryTier tier.name st
        if r.1 then
          let cost :=
            if tier.name = "elevenlabs" then qmul (mkRat text.length 1) tier.cost_per_char
            else 0
          (⟨true, some tier.name, cost, fc, some tier.quality, none⟩, r.2, attempted2)
        else voiceLoop tryTier text rest (fc + 1) r.2 attempted2

/-- `VoiceManager.speak`: empty or whitespace-only text returns immediately
with no tier attempt and no budget access; a forced tier restricts the loop
to the first tier of that name; otherwise all tiers from the current
preference are tried in order. -/
def speak (tiers : List VoiceTier) (current_tier : ℕ) (force_tier : Option String)
    (tryTier : VoiceOracle) (text : String) (st : BudgetState) :
    SpeakResult × BudgetState × List String :=
  if pyStrip text = "" then
    (⟨false, none, 0, 0, none, some "Empty text"⟩, st, [])
  else
    match force_tier with
    | some ft =>
      match tiers.find? (fun t => t.name = ft) with
      | some t => voiceLoop tryTier text [t] 0 st []
      | none =>
        (⟨false, none, 0, 0, none, some ("Unknown tier: " ++ ft)⟩, st, [])
    | none => voiceLoop tryTier text (tiers.drop current_tier) 0 st []

/-! ## Helper lemmas -/

theorem reset_daily_lastDaily (now : NowKeys) (st : BudgetState) :
    (reset_daily now st).lastDaily = now.day := by
  unfold reset_daily
  split
  · rfl
  · next h => simpa using h

theorem reset_weekly_lastWeekly (now : NowKeys) (st : BudgetState) :
    (reset_weekly now st).lastWeekly = now.week := by
  unfold reset_weekly
  split
  · rfl
  · next h => simpa using h

theorem reset_monthly_lastMonthly (now : NowKeys) (st : BudgetState) :
    (reset_monthly now st).lastMonthly = now.month := by
  unfold reset_monthly
  split
  · rfl
  · next h => simpa using h

theorem reset_weekly_lastDaily (now : NowKeys) (st : BudgetState) :
    (reset_weekly now st).lastDaily = st.lastDaily := by
  unfold reset_weekly
  split <;> rfl

theorem reset_monthly_lastDaily (now : NowKeys) (st : BudgetState) :
    (reset_monthly now st).lastDaily = st.lastDaily := by
  unfold reset_monthly
  split <;> rfl

theorem reset_monthly_lastWeekly (now : NowKeys) (st : BudgetState) :
    (reset_monthly now st).lastWeekly = st.lastWeekly := by
  unfold reset_monthly
  split <;> rfl

theorem check_and_reset_lastDaily (now : NowKeys) (st : BudgetState) :
    (check_and_reset now st).lastDaily = now.day := by
  unfold check_and_reset
  rw [reset_monthly_lastDaily, reset_weekly_lastDaily, reset_daily_lastDaily]

theorem check_and_reset_lastWeekly (now : NowKeys) (st : BudgetState) :
    (check_and_reset now st).lastWeekly = now.week := by
  unfold check_and_reset
  rw [reset_monthly_lastWeekly, reset_weekly_lastWeekly]

theorem check_and_reset_lastMonthly (now : NowKeys) (st : BudgetState) :
    (check_and_reset now st).lastMonthly = now.month := by
  unfold check_and_reset
  rw [reset_monthly_lastMonthly]

theorem reset_daily_of_eq (now : NowKeys) (st : BudgetState)
    (h : st.lastDaily = now.day) : reset_daily now st = st := by
  unfold reset_daily
  simp [h]

theorem reset_weekly_of_eq (now : NowKeys) (st : BudgetState)
    (h : st.lastWeekly = now.week) : reset_weekly now st = st := by
  unfold reset_weekly
  simp [h]

theorem reset_monthly_of_eq (now : NowKeys) (st : BudgetState)
    (h : st.lastMonthly = now.month) : reset_monthly now st = st := by
  unfold reset_monthly
  simp [h]

theorem check_and_reset_of_fresh (now : NowKeys) (st : BudgetState)
    (hd : st.lastDaily = now.day) (hw : st.lastWeekly = now.week)
    (hm : st.lastMonthly = now.month) : check_and_reset now st = st := by
  unfold check_and_reset
  rw [reset_daily_of_eq now st hd, reset_weekly_of_eq now st hw,
    reset_monthly_of_eq now st hm]

/-! ## Claim theorems -/

/-- C6: `_check_and_reset_periods` is idempotent within the same day, week
and month: a second run with the same wall-clock period keys performs zero
additional mutation to usage or `last_reset`. -/
theorem reset_periods_idempotent (now : NowKeys) (st : BudgetState) :
    check_and_reset now (check_and_reset now st) = check_and_reset now st :=
  check_and_reset_of_fresh now (check_and_reset now st)
    (check_and_reset_lastDaily now st)
    (check_and_reset_lastWeekly now st)
    (check_and_reset_lastMonthly now st)

/-- The wall-clock keys used in the concrete budget scenarios. -/
def scenario_now : NowKeys := ⟨"2026-10-12", "2026-W41", "2026-10"⟩

/-- Scenario A state: `limits = \x7bopenai: \x7bdaily: 1.00\x7d\x7d`,
`usage = \x7bopenai: \x7bdaily: 0.95\x7d\x7d`, no reset pending. -/
def scenarioA_state : BudgetState :=
  { usage := [("openai", ⟨mkRat 95 100, 0, 0⟩)],
    limits := [("openai", ⟨some 1, none, none⟩)],
    lastDaily := "2026-10-12", lastWeekly := "2026-W41", lastMonthly := "2026-10" }

/-- C8 counterexample: on the Scenario A inputs, `can_afford` does not
return the pair claimed by the spec — Python's `:.4f` formatting pads the
amounts to four decimal places. -/
theorem scenarioA_message_ne_spec :
    (can_afford scenario_now "openai" (mkRat 1 10) scenarioA_state).1 ≠
      (false, "openai daily budget exceeded (0.95 + 0.10 > 1.00)") := by
  decide

/-- C8 amended: on the Scenario A inputs, `can_afford` returns exactly
`(false, "openai daily budget exceeded (0.9500 + 0.1000 > 1.00)")`. -/
theorem scenarioA_exact_result :
    (can_afford scenario_now "openai" (mkRat 1 10) scenarioA_state).1 =
      (false, "openai daily budget exceeded (0.9500 + 0.1000 > 1.00)") := by
  decide

/-- C9: the calculator handler evaluates an expression only when every
character is a digit, one of the four basic operators, a parenthesis, a
decimal point or a space; any other character is rejected as
`Invalid expression` before evaluation is invoked (the Bool component
witnesses whether `eval` ran); `"import os"` is rejected that way and
`"2+2*3"` evaluates to `8`. -/
theorem calculator_guard :
    (∀ e : String, e ≠ "" →
      ¬ (e.toList.all (fun c => allowed_chars.contains c) = true) →
      handle_calculator_request e = (⟨false, none, some "Invalid expression"⟩, false)) ∧
    handle_calculator_request "import os" = (⟨false, none, some "Invalid expression"⟩, false) ∧
    handle_calculator_request "2+2*3" = (⟨true, some 8, none⟩, true) := by
  refine ⟨?_, by decide, by decide⟩
  intro e he hbad
  unfold handle_calculator_request
  rw [if_neg he, if_neg hbad]

/-- C9 witness: the guard clause applied to a concrete disallowed input. -/
theorem calculator_guard_witness :
    handle_calculator_request "print(1)" = (⟨false, none, some "Invalid expression"⟩, false) :=
  calculator_guard.1 "print(1)" (by decide) (by decide)

/-- C10: empty or whitespace-only text makes `speak` return
`\x7b"success": False, "error": "Empty text"\x7d` immediately: no voice tier
is attempted and the budget ledger is returned untouched. -/
theorem speak_empty_text (tiers : List VoiceTier) (current_tier : ℕ)
    (force_tier : Option String) (tryTier : VoiceOracle) (text : String)
    (st : BudgetState) (h : pyStrip text = "") :
    speak tiers current_tier force_tier tryTier text st =
      (⟨false, none, 0, 0, none, some "Empty text"⟩, st, []) := by
  unfold speak
  rw [if_pos h]

/-- C10 witness: `speak` on a whitespace-only string with the full tier
stack and an always-succeeding synthesis oracle. -/
theorem speak_empty_text_witness :
    pyStrip " \t " = "" ∧
    speak (voice_tiers true true true true) 0 none (fun _ st => (true, st)) " \t "
        scenarioA_state =
      (⟨false, none, 0, 0, none, some "Empty text"⟩, scenarioA_state, []) :=
  ⟨by decide,
   speak_empty_text (voice_tiers true true true true) 0 none
     (fun _ st => (true, st)) " \t " scenarioA_state (by decide)⟩

theorem takeUntil_all_false {α : Type} (p : α → Bool) (l : List α)
    (h : ∀ a ∈ l, p a = false) : takeUntilSuccess p l = l := by
  induction l with
  | nil => rfl
  | cons a rest ih =>
    have ha := h a (by simp)
    simp only [takeUntilSuccess, ha]
    simp [ih (fun b hb => h b (by simp [hb]))]

theorem takeUntil_append_all_false {α : Type} (p : α → Bool) (l1 l2 : List α)
    (h : ∀ a ∈ l1, p a = false) :
    takeUntilSuccess p (l1 ++ l2) = l1 ++ takeUntilSuccess p l2 := by
  induction l1 with
  | nil => simp
  | cons a rest ih =>
    have ha := h a (by simp)
    simp only [List.cons_append, takeUntilSuccess, ha]
    simp [ih (fun b hb => h b (by simp [hb]))]

theorem takeUntil_append_of_stop {α : Type} (p : α → Bool) (l1 l2 : List α)
    (h : ∃ a ∈ l1, p a = true) :
    takeUntilSuccess p (l1 ++ l2) = takeUntilSuccess p l1 := by
  induction l1 with
  | nil =>
    rcases h with ⟨a, ha, _⟩
    simp at ha
  | cons a rest ih =>
    cases hp : p a with
    | true => simp [takeUntilSuccess, hp]
    | false =>
      rcases h with ⟨b, hb, hpb⟩
      rcases List.mem_cons.mp hb with rfl | hb2
      · rw [hp] at hpb; cases hpb
      · simp [takeUntilSuccess, hp, ih ⟨b, hb2, hpb⟩]

theorem tryModels_none_iff (call : LLMOracle) (msgs : List Message)
    (emerg name : String) (models : List String) :
    (tryModels call msgs emerg name models).1 = none ↔
      ∀ m ∈ models, dispatch call msgs emerg name m = none := by
  induction models with
  | nil => simp [tryModels]
  | cons m rest ih =>
    cases hd : dispatch call msgs emerg name m with
    | some r => simp [tryModels, hd]
    | none => simp [tryModels, hd, ih]

theorem tryModels_all_none (call : LLMOracle) (msgs : List Message)
    (emerg name : String) (models : List String)
    (h : ∀ m ∈ models, dispatch call msgs emerg name m = none) :
    tryModels call msgs emerg name models =
      (none, models.map (fun m => (name, m))) := by
  induction models with
  | nil => rfl
  | cons m rest ih =>
    have hm := h m (by simp)
    simp only [tryModels, hm]
    simp [ih (fun b hb => h b (by simp [hb]))]

theorem tryModels_trace (call : LLMOracle) (msgs : List Message)
    (emerg name : String) (models : List String) :
    (tryModels call msgs emerg name models).2 =
      takeUntilSuccess (succAttempt call msgs emerg)
        (models.map (fun m => (name, m))) := by
  induction models with
  | nil => rfl
  | cons m rest ih =>
    cases hd : dispatch call msgs emerg name m with
    | some r => simp [tryModels, hd, takeUntilSuccess, succAttempt]
    | none => simp [tryModels, hd, takeUntilSuccess, succAttempt, ih]

theorem attemptSequence_cons_true (cfg : LLMConfig) (rest : List LLMConfig)
    (h : cfg.available = true) :
    attemptSequence (cfg :: rest) =
      cfg.models.map (fun m => (cfg.name, m)) ++ attemptSequence rest := by
  simp [attemptSequence, h]

theorem attemptSequence_cons_false (cfg : LLMConfig) (rest : List LLMConfig)
    (h : cfg.available = false) :
    attemptSequence (cfg :: rest) = attemptSequence rest := by
  simp [attemptSequence, h]

theorem tryChain_cons_unavail (call : LLMOracle) (msgs : List Message)
    (emerg : String) (cfg : LLMConfig) (rest : List LLMConfig)
    (h : cfg.available = false) :
    tryChain call msgs emerg (cfg :: rest) = tryChain call msgs emerg rest := by
  simp [tryChain, h]

theorem tryChain_cons_avail_some (call : LLMOracle) (msgs : List Message)
    (emerg : String) (cfg : LLMConfig) (rest : List LLMConfig)
    (r : String × ℚ × String) (tr : List (String × String))
    (h : cfg.available = true)
    (htm : tryModels call msgs emerg cfg.name cfg.models = (some r, tr)) :
    tryChain call msgs emerg (cfg :: rest) =
      (some (r.1, r.2.1, cfg.name, r.2.2), tr) := by
  simp [tryChain, h, htm]

theorem tryChain_cons_avail_none (call : LLMOracle) (msgs : List Message)
    (emerg : String) (cfg : LLMConfig) (rest : List LLMConfig)
    (tr : List (String × String))
    (h : cfg.available = true)
    (htm : tryModels call msgs emerg cfg.name cfg.models = (none, tr)) :
    tryChain call msgs emerg (cfg :: rest) =
      ((tryChain call msgs emerg rest).1, tr ++ (tryChain call msgs emerg rest).2) := by
  simp [tryChain, h, htm]

theorem tryChain_skip_fst (call : LLMOracle) (msgs : List Message)
    (emerg : String) (cfg : LLMConfig) (rest : List LLMConfig)
    (h : cfg.available = false ∨
      ∀ m ∈ cfg.models, dispatch call msgs emerg cfg.name m = none) :
    (tryChain call msgs emerg (cfg :: rest)).1 = (tryChain call msgs emerg rest).1 := by
  rcases h with h | h
  · rw [tryChain_cons_unavail call msgs emerg cfg rest h]
  · cases hav : cfg.available with
    | false => rw [tryChain_cons_unavail call msgs emerg cfg rest hav]
    | true =>
      rw [tryChain_cons_avail_none call msgs emerg cfg rest _ hav
        (tryModels_all_none call msgs emerg cfg.name cfg.models h)]

theorem tryChain_trace (call : LLMOracle) (msgs : List Message)
    (emerg : String) (chain : List LLMConfig) :
    (tryChain call msgs emerg chain).2 =
      takeUntilSuccess (succAttempt call msgs emerg) (attemptSequence chain) := by
  induction chain with
  | nil => rfl
  | cons cfg rest ih =>
    cases hav : cfg.available with
    | false =>
      rw [tryChain_cons_unavail call msgs emerg cfg rest hav,
        attemptSequence_cons_false cfg rest hav, ih]
    | true =>
      rw [attemptSequence_cons_true cfg rest hav]
      rcases htm : tryModels call msgs emerg cfg.name cfg.models with ⟨res, tr⟩
      have htr : tr = takeUntilSuccess (succAttempt call msgs emerg)
          (cfg.models.map (fun m => (cfg.name, m))) := by
        have := tryModels_trace call msgs emerg cfg.name cfg.models
        rw [htm] at this
        exact this
      cases res with
      | some r =>
        rw [tryChain_cons_avail_some call msgs emerg cfg rest r tr hav htm]
        have hex : ∃ a ∈ cfg.models.map (fun m => (cfg.name, m)),
            succAttempt call msgs emerg a = true := by
          by_contra hno
          push_neg at hno
          have hall : ∀ m ∈ cfg.models, dispatch call msgs emerg cfg.name m = none := by
            intro m hm
            have := hno (cfg.name, m) (List.mem_map_of_mem _ hm)
            simpa [succAttempt, Option.isSome_iff_ne_none] using this
          have := tryModels_all_none call msgs emerg cfg.name cfg.models hall
          rw [htm] at this
          cases this
        rw [takeUntil_append_of_stop _ _ _ hex, ← htr]
      | none =>
        rw [tryChain_cons_avail_none call msgs emerg cfg rest tr hav htm]
        have hall : ∀ m ∈ cfg.models, dispatch call msgs emerg cfg.name m = none := by
          have := tryModels_none_iff call msgs emerg cfg.name cfg.models
          rw [htm] at this
          exact this.mp rfl
        have hfalse : ∀ a ∈ cfg.models.map (fun m => (cfg.name, m)),
            succAttempt call msgs emerg a = false := by
          intro a ha
          rcases List.mem_map.mp ha with ⟨m, hm, rfl⟩
          simp [succAttempt, hall m hm]
        rw [takeUntil_append_all_false _ _ _ hfalse, ih, htr,
          takeUntil_all_false _ _ hfalse]

/-- C1: when every non-emergency provider in the chain is unavailable or all
its attempted calls fail, `get_response` still returns a success sourced from
the emergency responder at cost 0 (the emergency entry is hardcoded
available and `_get_emergency_response` is total, so some response is always
returned). -/
theorem emergency_guarantee (o c l : Bool) (call : LLMOracle) (nowTime : String)
    (choice : ℕ) (maxLen : ℤ) (history : List Message)
    (system_message : Option String) (user_input : String)
    (ho : o = false ∨ ∀ m msgs, call "openai" m msgs = none)
    (hc : c = false ∨ ∀ m msgs, call "claude" m msgs = none)
    (hl : l = false ∨ ∀ m msgs, call "llama" m msgs = none) :
    (get_response call (llm_chain o c l) nowTime choice maxLen history
        system_message user_input).1.source = "emergency" ∧
    (get_response call (llm_chain o c l) nowTime choice maxLen history
        system_message user_input).1.cost = 0 ∧
    (get_response call (llm_chain o c l) nowTime choice maxLen history
        system_message user_input).1.model = "hardcoded" ∧
    (get_response call (llm_chain o c l) nowTime choice maxLen history
        system_message user_input).1.success = true ∧
    (get_response call (llm_chain o c l) nowTime choice maxLen history
        system_message user_input).1.error = none := by
  have key : ∀ (msgs : List Message) (emerg : String),
      (tryChain call msgs emerg (llm_chain o c l)).1 =
        some (emerg, 0, "emergency", "hardcoded") := by
    intro msgs emerg
    have ho2 : (⟨"openai", ["gpt-4", "gpt-3.5-turbo"], o, "premium"⟩ : LLMConfig).available = false ∨
        ∀ m ∈ ["gpt-4", "gpt-3.5-turbo"],
          dispatch call msgs emerg "openai" m = none := by
      rcases ho with h | h
      · exact Or.inl h
      · exact Or.inr (fun m _ => by simp [dispatch, h])
    have hc2 : (⟨"claude", ["claude-3-sonnet", "claude-3-haiku"], c, "mid"⟩ : LLMConfig).available = false ∨
        ∀ m ∈ ["claude-3-sonnet", "claude-3-haiku"],
          dispatch call msgs emerg "claude" m = none := by
      rcases hc with h | h
      · exact Or.inl h
      · exact Or.inr (fun m _ => by simp [dispatch, h])
    have hl2 : (⟨"llama", ["llama-7b", "llama-13b"], l, "free"⟩ : LLMConfig).available = false ∨
        ∀ m ∈ ["llama-7b", "llama-13b"],
          dispatch call msgs emerg "llama" m = none := by
      rcases hl with h | h
      · exact Or.inl h
      · exact Or.inr (fun m _ => by simp [dispatch, h])
    simp only [llm_chain]
    rw [tryChain_skip_fst call msgs emerg _ _ ho2,
      tryChain_skip_fst call msgs emerg _ _ hc2,
      tryChain_skip_fst call msgs emerg _ _ hl2]
    simp [tryChain, tryModels, dispatch]
  rcases htc : tryChain call (build_messages system_message maxLen history user_input)
      (get_emergency_response nowTime choice user_input) (llm_chain o c l) with ⟨res, tr⟩
  have h1 := key (build_messages system_message maxLen history user_input)
      (get_emergency_response nowTime choice user_input)
  rw [htc] at h1
  simp only [] at h1
  subst h1
  refine ⟨?_, ?_, ?_, ?_, ?_⟩ <;> simp [get_response, htc]

/-- C1 witness: all three real providers available but failing on a concrete
request. -/
theorem emergency_guarantee_witness :
    (get_response (fun _ _ _ => none) (llm_chain true true true) "12:00 PM" 0 4000 []
        none "status report").1.source = "emergency" ∧
    (get_response (fun _ _ _ => none) (llm_chain true true true) "12:00 PM" 0 4000 []
        none "status report").1.cost = 0 ∧
    (get_response (fun _ _ _ => none) (llm_chain true true true) "12:00 PM" 0 4000 []
        none "status report").1.model = "hardcoded" ∧
    (get_response (fun _ _ _ => none) (llm_chain true true true) "12:00 PM" 0 4000 []
        none "status report").1.success = true ∧
    (get_response (fun _ _ _ => none) (llm_chain true true true) "12:00 PM" 0 4000 []
        none "status report").1.error = none :=
  emergency_guarantee true true true (fun _ _ _ => none) "12:00 PM" 0 4000 [] none
    "status report" (Or.inr (fun _ _ => rfl)) (Or.inr (fun _ _ => rfl))
    (Or.inr (fun _ _ => rfl))

/-- C4: with the chain `[openai(unavailable), claude(available, failing),
llama(available, succeeding on its first model), emergency]`, `get_response`
resolves via llama; the attempt trace is exactly the two claude models then
`llama-7b`, so neither openai nor emergency is ever invoked; and in general
the trace of a chain traversal is the availability-filtered static
configuration order truncated at the first success. -/
theorem cascade_order (call : LLMOracle) (resp : String) (cost : ℚ)
    (nowTime : String) (choice : ℕ) (maxLen : ℤ) (history : List Message)
    (system_message : Option String) (user_input : String)
    (hB : ∀ m msgs, call "claude" m msgs = none)
    (hC : ∀ msgs, call "llama" "llama-7b" msgs = some (resp, cost)) :
    (get_response call (llm_chain false true true) nowTime choice maxLen history
        system_message user_input).1.source = "llama" ∧
    (get_response call (llm_chain false true true) nowTime choice maxLen history
        system_message user_input).1.model = "llama-7b" ∧
    (get_response call (llm_chain false true true) nowTime choice maxLen history
        system_message user_input).1.response = resp ∧
    (get_response call (llm_chain false true true) nowTime choice maxLen history
        system_message user_input).2.2 =
      [("claude", "claude-3-sonnet"), ("claude", "claude-3-haiku"),
       ("llama", "llama-7b")] ∧
    (∀ m, ("openai", m) ∉
      (get_response call (llm_chain false true true) nowTime choice maxLen history
        system_message user_input).2.2) ∧
    (∀ m, ("emergency", m) ∉
      (get_response call (llm_chain false true true) nowTime choice maxLen history
        system_message user_input).2.2) ∧
    (∀ (chain : List LLMConfig) (msgs : List Message) (emerg : String),
      (tryChain call msgs emerg chain).2 =
        takeUntilSuccess (succAttempt call msgs emerg) (attemptSequence chain)) := by
  have key : ∀ (msgs : List Message) (emerg : String),
      tryChain call msgs emerg (llm_chain false true true) =
        (some (resp, cost, "llama", "llama-7b"),
         [("claude", "claude-3-sonnet"), ("claude", "claude-3-haiku"),
          ("llama", "llama-7b")]) := by
    intro msgs emerg
    simp [llm_chain, tryChain, tryModels, dispatch, hB, hC]
  refine ⟨?_, ?_, ?_, ?_, ?_, ?_,
    fun chain msgs emerg => tryChain_trace call msgs emerg chain⟩ <;>
    simp [get_response, key]

/-- C4 witness: a concrete oracle where claude fails and llama succeeds. -/
theorem cascade_order_witness :
    (get_response (fun n _ _ => if n = "llama" then some ("done", 0) else none)
        (llm_chain false true true) "12:00 PM" 0 4000 [] none "hello").1.source = "llama" ∧
    (get_response (fun n _ _ => if n = "llama" then some ("done", 0) else none)
        (llm_chain false true true) "12:00 PM" 0 4000 [] none "hello").1.model = "llama-7b" ∧
    (get_response (fun n _ _ => if n = "llama" then some ("done", 0) else none)
        (llm_chain false true true) "12:00 PM" 0 4000 [] none "hello").1.response = "done" ∧
    (get_response (fun n _ _ => if n = "llama" then some ("done", 0) else none)
        (llm_chain false true true) "12:00 PM" 0 4000 [] none "hello").2.2 =
      [("claude", "claude-3-sonnet"), ("claude", "claude-3-haiku"),
       ("llama", "llama-7b")] ∧
    (∀ m, ("openai", m) ∉
      (get_response (fun n _ _ => if n = "llama" then some ("done", 0) else none)
        (llm_chain false true true) "12:00 PM" 0 4000 [] none "hello").2.2) ∧
    (∀ m, ("emergency", m) ∉
      (get_response (fun n _ _ => if n = "llama" then some ("done", 0) else none)
        (llm_chain false true true) "12:00 PM" 0 4000 [] none "hello").2.2) ∧
    (∀ (chain : List LLMConfig) (msgs : List Message) (emerg : String),
      (tryChain (fun n _ _ => if n = "llama" then some ("done", 0) else none)
          msgs emerg chain).2 =
        takeUntilSuccess
          (succAttempt (fun n _ _ => if n = "llama" then some ("done", 0) else none)
            msgs emerg)
          (attemptSequence chain)) :=
  cascade_order (fun n _ _ => if n = "llama" then some ("done", 0) else none)
    "done" 0 "12:00 PM" 0 4000 [] none "hello"
    (fun _ _ => rfl) (fun _ => rfl)

theorem lookup_append {α : Type} (l1 l2 : List (String × α)) (s : String) :
    lookup (l1 ++ l2) s =
      match lookup l1 s with
      | some v => some v
      | none => lookup l2 s := by
  induction l1 with
  | nil => simp [lookup]
  | cons kv rest ih =>
    rcases kv with ⟨k, v⟩
    by_cases hk : k = s
    · simp [lookup, hk]
    · simp [lookup, hk, ih]

theorem usageVal_insert (st : BudgetState) (s s' : String) :
    usageVal (insert_service st s) s' = usageVal st s' := by
  unfold insert_service usageVal
  split
  · next h =>
    rw [lookup_append]
    by_cases hss : s = s'
    · subst hss
      rw [h]
      simp [lookup]
    · rcases hl : lookup st.usage s' with _ | v
      · simp [lookup, hss]
      · simp
  · rfl

theorem can_afford_state_fresh (now : NowKeys) (s : String) (est : ℚ)
    (st : BudgetState) (hd : st.lastDaily = now.day) (hw : st.lastWeekly = now.week)
    (hm : st.lastMonthly = now.month) :
    (can_afford now s est st).2 = insert_service st s := by
  unfold can_afford
  rw [check_and_reset_of_fresh now st hd hw hm]
  dsimp only
  split
  · rfl
  · split
    · rfl
    · split <;> rfl

/-- C3: a provider attempt that fails — whether denied by the budget gate or
by a raised provider exception — leaves the service's usage buckets exactly
as they were (given no period rollover is pending, so the reset pass is a
no-op); this holds for both `_call_openai` and `_call_claude`. -/
theorem no_billing_on_failure (api : String → List Message → Option String)
    (apiC : String → String → List Message → Option String)
    (now : NowKeys) (messages : List Message) (model : String) (st : BudgetState)
    (hd : st.lastDaily = now.day) (hw : st.lastWeekly = now.week)
    (hm : st.lastMonthly = now.month) :
    ((call_openai api now messages model st).1 = none →
      usageVal (call_openai api now messages model st).2.1 "openai" =
        usageVal st "openai") ∧
    ((call_claude apiC now messages model st).1 = none →
      usageVal (call_claude apiC now messages model st).2.1 "claude" =
        usageVal st "claude") := by
  constructor
  · rcases hr : can_afford now "openai" (estimated_openai_cost messages model) st
      with ⟨rr, st2⟩
    have hst2 : st2 = insert_service st "openai" := by
      have h0 := can_afford_state_fresh now "openai"
        (estimated_openai_cost messages model) st hd hw hm
      rw [hr] at h0
      exact h0
    cases hok : rr.1 with
    | false =>
      have hcall : call_openai api now messages model st = (none, st2, 0) := by
        simp only [call_openai]
        rw [hr]
        simp [hok]
      intro _
      rw [hcall, hst2]
      exact usageVal_insert st "openai" "openai"
    | true =>
      cases hapi : api model messages with
      | none =>
        have hcall : call_openai api now messages model st = (none, st2, 1) := by
          simp only [call_openai]
          rw [hr]
          simp [hok, hapi]
        intro _
        rw [hcall, hst2]
        exact usageVal_insert st "openai" "openai"
      | some result =>
        have hcall : (call_openai api now messages model st).1 = some
            (result, calculate_cost "openai" model
              ((messages.map (fun m => estimate_tokens m.content)).sum)
              (estimate_tokens result) 0) := by
          simp only [call_openai]
          rw [hr]
          simp [hok, hapi]
        intro hfail
        rw [hcall] at hfail
        exact absurd hfail (by simp)
  · rcases hr : can_afford now "claude" (estimated_claude_cost messages model) st
      with ⟨rr, st2⟩
    have hst2 : st2 = insert_service st "claude" := by
      have h0 := can_afford_state_fresh now "claude"
        (estimated_claude_cost messages model) st hd hw hm
      rw [hr] at h0
      exact h0
    cases hok : rr.1 with
    | false =>
      have hcall : call_claude apiC now messages model st = (none, st2, 0) := by
        simp only [call_claude]
        rw [hr]
        simp [hok]
      intro _
      rw [hcall, hst2]
      exact usageVal_insert st "claude" "claude"
    | true =>
      cases hapi : apiC model
          (String.join ((messages.filter (fun m => m.role = "system")).map
            (fun m => m.content ++ "\n")))
          (messages.filter (fun m => m.role != "system")) with
      | none =>
        have hcall : call_claude apiC now messages model st = (none, st2, 1) := by
          simp only [call_claude]
          rw [hr]
          simp [hok, hapi]
        intro _
        rw [hcall, hst2]
        exact usageVal_insert st "claude" "claude"
      | some result =>
        have hcall : (call_claude apiC now messages model st).1 = some
            (result, calculate_cost "claude" model
              ((messages.map (fun m => estimate_tokens m.content)).sum)
              (estimate_tokens result) 0) := by
          simp only [call_claude]
          rw [hr]
          simp [hok, hapi]
        intro hfail
        rw [hcall] at hfail
        exact absurd hfail (by simp)

/-- C3 witness: a failing network oracle on a fresh-day state with recorded
usage; both services keep their usage buckets unchanged. -/
theorem no_billing_on_failure_witness :
    ((call_openai (fun _ _ => none) scenario_now
        [⟨"user", "hello"⟩] "gpt-4" scenarioA_state).1 = none →
      usageVal (call_openai (fun _ _ => none) scenario_now
        [⟨"user", "hello"⟩] "gpt-4" scenarioA_state).2.1 "openai" =
        usageVal scenarioA_state "openai") ∧
    ((call_claude (fun _ _ _ => none) scenario_now
        [⟨"user", "hello"⟩] "claude-3-haiku" scenarioA_state).1 = none →
      usageVal (call_claude (fun _ _ _ => none) scenario_now
        [⟨"user", "hello"⟩] "claude-3-haiku" scenarioA_state).2.1 "claude" =
        usageVal scenarioA_state "claude") :=
  no_billing_on_failure (fun _ _ => none) (fun _ _ _ => none) scenario_now
    [⟨"user", "hello"⟩] "gpt-4" scenarioA_state rfl rfl rfl

theorem limsFor_insert (st : BudgetState) (s s' : String) :
    limsFor (insert_service st s) s' = limsFor st s' := by
  unfold insert_service limsFor
  split <;> rfl

theorem checkPeriod_none_iff (s p : String) (cur est : ℚ) (lim : Option ℚ) :
    checkPeriod s p cur est lim = none ↔ ∀ l, lim = some l → cur + est ≤ l := by
  cases lim with
  | none => simp [checkPeriod]
  | some l =>
    simp only [checkPeriod]
    by_cases h : l < cur + est
    · have hb : qlt l (qadd cur est) = true := by rw [qlt_iff, qadd_eq]; exact h
      rw [if_pos hb]
      constructor
      · intro hco; exact absurd hco (by simp)
      · intro hall; exact absurd (hall l rfl) (not_le.mpr h)
    · have hb : ¬ (qlt l (qadd cur est) = true) := by
        rw [qlt_iff, qadd_eq]; exact h
      rw [if_neg hb]
      simp only [true_iff]
      intro l2 hl2
      cases hl2
      exact not_lt.mp h

theorem checkPeriod_some (s p : String) (cur est : ℚ) (lim : Option ℚ)
    (msg : String) (h : checkPeriod s p cur est lim = some msg) :
    ∃ l, lim = some l ∧ cur + est > l ∧ msg = afford_msg s p cur est l := by
  cases lim with
  | none => simp [checkPeriod] at h
  | some l =>
    simp only [checkPeriod] at h
    by_cases hb : qlt l (qadd cur est) = true
    · rw [if_pos hb] at h
      refine ⟨l, rfl, ?_, ?_⟩
      · rw [qlt_iff, qadd_eq] at hb; exact hb
      · exact (Option.some.injEq _ _ ▸ h).symm
    · rw [if_neg hb] at h
      cases h

theorem can_afford_result (now : NowKeys) (s : String) (est : ℚ) (st : BudgetState) :
    (can_afford now s est st).1 =
      match checkPeriod s "daily" (usageVal (check_and_reset now st) s).daily est
          (limsFor (check_and_reset now st) s).daily with
      | some msg => (false, msg)
      | none =>
        match checkPeriod s "weekly" (usageVal (check_and_reset now st) s).weekly est
            (limsFor (check_and_reset now st) s).weekly with
        | some msg => (false, msg)
        | none =>
          match checkPeriod s "monthly" (usageVal (check_and_reset now st) s).monthly est
              (limsFor (check_and_reset now st) s).monthly with
          | some msg => (false, msg)
          | none => (true, "OK") := by
  unfold can_afford
  dsimp only
  have hu : (lookup (insert_service (check_and_reset now st) s).usage s).getD ⟨0, 0, 0⟩ =
      usageVal (check_and_reset now st) s := usageVal_insert (check_and_reset now st) s s
  have hlm : (lookup (insert_service (check_and_reset now st) s).limits s).getD
      ((lookup default_limits s).getD ⟨none, none, none⟩) =
      limsFor (check_and_reset now st) s := limsFor_insert (check_and_reset now st) s s
  rw [hu, hlm]
  split
  · rfl
  · split
    · rfl
    · split <;> rfl

/-- C2: after pending period resets are applied, if any configured period's
current usage plus the estimate exceeds that period's limit then `can_afford`
answers false with a reason naming the service and a violated period (built
by `afford_msg`); it answers true only if every configured period passes;
and a false answer makes `_call_openai` raise before any network call is
attempted (zero attempts, no result, state as left by the gate). -/
theorem affordability_gate (now : NowKeys) (s : String) (est : ℚ)
    (st : BudgetState) (api : String → List Message → Option String)
    (messages : List Message) (model : String) :
    ((∃ p ∈ configuredPeriods, ∃ l,
        limGet p (limsFor (check_and_reset now st) s) = some l ∧
        periodVal p (usageVal (check_and_reset now st) s) + est > l) →
      (can_afford now s est st).1.1 = false ∧
      ∃ p ∈ configuredPeriods, ∃ l,
        limGet p (limsFor (check_and_reset now st) s) = some l ∧
        periodVal p (usageVal (check_and_reset now st) s) + est > l ∧
        (can_afford now s est st).1.2 =
          afford_msg s p (periodVal p (usageVal (check_and_reset now st) s)) est l) ∧
    ((can_afford now s est st).1.1 = true →
      ∀ p ∈ configuredPeriods, ∀ l,
        limGet p (limsFor (check_and_reset now st) s) = some l →
        periodVal p (usageVal (check_and_reset now st) s) + est ≤ l) ∧
    ((can_afford now "openai" (estimated_openai_cost messages model) st).1.1 = false →
      call_openai api now messages model st =
        (none, (can_afford now "openai" (estimated_openai_cost messages model) st).2, 0)) := by
  have hres := can_afford_result now s est st
  refine ⟨?_, ?_, ?_⟩
  · intro hex
    rcases h1 : checkPeriod s "daily" (usageVal (check_and_reset now st) s).daily est
        (limsFor (check_and_reset now st) s).daily with _ | msg1
    · rcases h2 : checkPeriod s "weekly" (usageVal (check_and_reset now st) s).weekly est
          (limsFor (check_and_reset now st) s).weekly with _ | msg2
      · rcases h3 : checkPeriod s "monthly" (usageVal (check_and_reset now st) s).monthly est
            (limsFor (check_and_reset now st) s).monthly with _ | msg3
        · exfalso
          rcases hex with ⟨p, hp, l, hlim, hexc⟩
          have hp3 : p = "daily" ∨ p = "weekly" ∨ p = "monthly" := by
            simpa [configuredPeriods] using hp
          rcases hp3 with rfl | rfl | rfl
          · have := (checkPeriod_none_iff s "daily" _ est _).mp h1 l
              (by simpa [limGet] using hlim)
            simp only [periodVal, if_pos rfl] at hexc
            exact absurd this (not_le.mpr hexc)
          · have := (checkPeriod_none_iff s "weekly" _ est _).mp h2 l
              (by simpa [limGet] using hlim)
            simp only [periodVal] at hexc
            norm_num at hexc
            exact absurd this (not_le.mpr hexc)
          · have := (checkPeriod_none_iff s "monthly" _ est _).mp h3 l
              (by simpa [limGet] using hlim)
            simp only [periodVal] at hexc
            norm_num at hexc
            exact absurd this (not_le.mpr hexc)
        · rw [h1, h2, h3] at hres
          rcases checkPeriod_some s "monthly" _ est _ msg3 h3 with ⟨l, hl, hexc, hmsg⟩
          refine ⟨by rw [hres], "monthly", by simp [configuredPeriods], l,
            by simp [limGet, hl], by simpa [periodVal] using hexc, ?_⟩
          rw [hres]
          simpa [periodVal] using hmsg
      · rw [h1, h2] at hres
        rcases checkPeriod_some s "weekly" _ est _ msg2 h2 with ⟨l, hl, hexc, hmsg⟩
        refine ⟨by rw [hres], "weekly", by simp [configuredPeriods], l,
          by simp [limGet, hl], by simpa [periodVal] using hexc, ?_⟩
        rw [hres]
        simpa [periodVal] using hmsg
    · rw [h1] at hres
      rcases checkPeriod_some s "daily" _ est _ msg1 h1 with ⟨l, hl, hexc, hmsg⟩
      refine ⟨by rw [hres], "daily", by simp [configuredPeriods], l,
        by simp [limGet, hl], by simpa [periodVal] using hexc, ?_⟩
      rw [hres]
      simpa [periodVal] using hmsg
  · intro htrue p hp l hlim
    rcases h1 : checkPeriod s "daily" (usageVal (check_and_reset now st) s).daily est
        (limsFor (check_and_reset now st) s).daily with _ | msg1
    · rcases h2 : checkPeriod s "weekly" (usageVal (check_and_reset now st) s).weekly est
          (limsFor (check_and_reset now st) s).weekly with _ | msg2
      · rcases h3 : checkPeriod s "monthly" (usageVal (check_and_reset now st) s).monthly est
            (limsFor (check_and_reset now st) s).monthly with _ | msg3
        · have hp3 : p = "daily" ∨ p = "weekly" ∨ p = "monthly" := by
            simpa [configuredPeriods] using hp
          rcases hp3 with rfl | rfl | rfl
          · simpa [periodVal] using
              (checkPeriod_none_iff s "daily" _ est _).mp h1 l (by simpa [limGet] using hlim)
          · simpa [periodVal] using
              (checkPeriod_none_iff s "weekly" _ est _).mp h2 l (by simpa [limGet] using hlim)
          · simpa [periodVal] using
              (checkPeriod_none_iff s "monthly" _ est _).mp h3 l (by simpa [limGet] using hlim)
        · rw [h1, h2, h3] at hres
          rw [hres] at htrue
          cases htrue
      · rw [h1, h2] at hres
        rw [hres] at htrue
        cases htrue
    · rw [h1] at hres
      rw [hres] at htrue
      cases htrue
  · intro hfalse
    rcases hr : can_afford now "openai" (estimated_openai_cost messages model) st
      with ⟨rr, st2⟩
    rw [hr] at hfalse
    simp only [] at hfalse
    simp only [call_openai]
    rw [hr]
    simp [hfalse]

/-- A state whose openai daily usage (1.05) already exceeds the daily limit
(1.00), so even a zero estimate is denied. -/
def scenarioC_state : BudgetState :=
  { usage := [("openai", ⟨mkRat 105 100, 0, 0⟩)],
    limits := [("openai", ⟨some 1, none, none⟩)],
    lastDaily := "2026-10-12", lastWeekly := "2026-W41", lastMonthly := "2026-10" }

/-- C2 witness: the gate applied to the Scenario A state (exceeding daily
period, concrete refusal message) and to an over-budget state showing
`_call_openai` makes zero network attempts after a denial. -/
theorem affordability_gate_witness :
    ((can_afford scenario_now "openai" (mkRat 1 10) scenarioA_state).1.1 = false ∧
      ∃ p ∈ configuredPeriods, ∃ l,
        limGet p (limsFor (check_and_reset scenario_now scenarioA_state) "openai") = some l ∧
        periodVal p (usageVal (check_and_reset scenario_now scenarioA_state) "openai") +
          mkRat 1 10 > l ∧
        (can_afford scenario_now "openai" (mkRat 1 10) scenarioA_state).1.2 =
          afford_msg "openai" p
            (periodVal p (usageVal (check_and_reset scenario_now scenarioA_state) "openai"))
            (mkRat 1 10) l) ∧
    call_openai (fun _ _ => none) scenario_now [⟨"user", "hi"⟩] "nomodel"
        scenarioC_state =
      (none,
       (can_afford scenario_now "openai"
         (estimated_openai_cost [⟨"user", "hi"⟩] "nomodel") scenarioC_state).2, 0) :=
  ⟨(affordability_gate scenario_now "openai" (mkRat 1 10) scenarioA_state
      (fun _ _ => none) [] "gpt-4").1
    ⟨"daily", by decide, 1, by decide, by
      have e1 : periodVal "daily"
          (usageVal (check_and_reset scenario_now scenarioA_state) "openai") =
          mkRat 95 100 := by decide
      rw [e1, Rat.mkRat_eq_div 95 100, Rat.mkRat_eq_div 1 10]
      norm_num⟩,
   (affordability_gate scenario_now "openai" 0 scenarioC_state
      (fun _ _ => none) [⟨"user", "hi"⟩] "nomodel").2.2 (by decide)⟩

theorem keyLe_total (a b : MCPAgent) : keyLe a b ∨ keyLe b a := by
  unfold keyLe
  rcases lt_trichotomy a.priority b.priority with h | h | h
  · exact Or.inl (Or.inl h)
  · rcases lt_trichotomy b.success_rate a.success_rate with h2 | h2 | h2
    · exact Or.inl (Or.inr ⟨h, Or.inl h2⟩)
    · rcases le_total (get_avg_response_time a) (get_avg_response_time b) with h3 | h3
      · exact Or.inl (Or.inr ⟨h, Or.inr ⟨h2.symm, h3⟩⟩)
      · exact Or.inr (Or.inr ⟨h.symm, Or.inr ⟨h2, h3⟩⟩)
    · exact Or.inr (Or.inr ⟨h.symm, Or.inl h2⟩)
  · exact Or.inr (Or.inl h)

theorem keyLe_trans (a b c : MCPAgent) (h1 : keyLe a b) (h2 : keyLe b c) :
    keyLe a c := by
  unfold keyLe at *
  rcases h1 with h1 | ⟨h1e, h1s⟩
  · rcases h2 with h2 | ⟨h2e, _⟩
    · exact Or.inl (by linarith)
    · exact Or.inl (by linarith)
  · rcases h2 with h2 | ⟨h2e, h2s⟩
    · exact Or.inl (by linarith)
    · refine Or.inr ⟨by linarith, ?_⟩
      rcases h1s with h1s | ⟨h1se, h1sa⟩
      · rcases h2s with h2s | ⟨h2se, _⟩
        · exact Or.inl (by linarith)
        · exact Or.inl (by linarith)
      · rcases h2s with h2s | ⟨h2se, h2sa⟩
        · exact Or.inl (by linarith)
        · exact Or.inr ⟨by linarith, by linarith⟩

instance : IsTotal MCPAgent keyLe := ⟨keyLe_total⟩

instance : IsTrans MCPAgent keyLe := ⟨keyLe_trans⟩

/-- C7: with X(priority 2, success rate 0.9) and Y(priority 1, success rate
0.5) both healthy and both declaring a capability, the router's candidate
list orders Y before X — the lower priority number wins regardless of
success rate; in general the candidate list is a permutation of the healthy
resolved agents sorted by the key
(priority asc, success rate desc, average response time asc). -/
theorem agent_selection (X Y : MCPAgent) (hname : X.name ≠ Y.name)
    (hXp : X.priority = 2) (hYp : Y.priority = 1)
    (hXh : X.is_healthy = true) (hYh : Y.is_healthy = true)
    (_hXs : X.success_rate = mkRat 9 10) (_hYs : Y.success_rate = mkRat 1 2) :
    get_agents_for_capability [("task", [X.name, Y.name])]
        [(X.name, X), (Y.name, Y)] "task" = [Y, X] ∧
    (∀ (capmap : List (String × List String)) (agents : List (String × MCPAgent))
        (cap : String),
      (get_agents_for_capability capmap agents cap).Perm
        (healthyFor capmap agents cap) ∧
      List.Sorted keyLe (get_agents_for_capability capmap agents cap)) := by
  constructor
  · have hpipe : get_agents_for_capability [("task", [X.name, Y.name])]
        [(X.name, X), (Y.name, Y)] "task" = List.insertionSort keyLe [X, Y] := by
      unfold get_agents_for_capability
      simp [lookup, hname, hXh, hYh]
    rw [hpipe]
    have hnot : ¬ keyLe X Y := by
      unfold keyLe
      rw [hXp, hYp]
      intro h
      rcases h with h | ⟨h, _⟩
      · norm_num at h
      · norm_num at h
    simp [List.insertionSort, List.orderedInsert, hnot]
  · intro capmap agents cap
    exact ⟨List.perm_insertionSort keyLe _, List.sorted_insertionSort keyLe _⟩

/-- C7 witness: concrete agents X and Y with the claimed statistics. -/
theorem agent_selection_witness :
    get_agents_for_capability [("task", ["X", "Y"])]
        [("X", ⟨"X", 2, true, mkRat 9 10, []⟩), ("Y", ⟨"Y", 1, true, mkRat 1 2, []⟩)]
        "task" =
      [⟨"Y", 1, true, mkRat 1 2, []⟩, ⟨"X", 2, true, mkRat 9 10, []⟩] ∧
    (∀ (capmap : List (String × List String)) (agents : List (String × MCPAgent))
        (cap : String),
      (get_agents_for_capability capmap agents cap).Perm
        (healthyFor capmap agents cap) ∧
      List.Sorted keyLe (get_agents_for_capability capmap agents cap)) :=
  agent_selection ⟨"X", 2, true, mkRat 9 10, []⟩ ⟨"Y", 1, true, mkRat 1 2, []⟩
    (by decide) rfl rfl rfl rfl rfl rfl

theorem tokenSum_append (l1 l2 : List Message) :
    tokenSum (l1 ++ l2) = tokenSum l1 + tokenSum l2 := by
  simp [tokenSum]

theorem tokenSum_pyInsert (l : List Message) (i : ℤ) (a : Message) :
    tokenSum (pyInsert l i a) = tokenOf a + tokenSum l := by
  unfold pyInsert
  dsimp only
  rw [tokenSum_append]
  have hsplit : tokenSum (l.take (if i < 0 then ((l.length : ℤ) + i).toNat
        else min i.toNat l.length)) +
      tokenSum (l.drop (if i < 0 then ((l.length : ℤ) + i).toNat
        else min i.toNat l.length)) = tokenSum l := by
    rw [← tokenSum_append, List.take_append_drop]
  simp only [tokenSum, List.map_cons, List.sum_cons] at *
  omega

theorem mem_pyInsert (l : List Message) (i : ℤ) (a b : Message) (h : b ∈ l) :
    b ∈ pyInsert l i a := by
  unfold pyInsert
  dsimp only
  have h2 : b ∈ l.take (if i < 0 then ((l.length : ℤ) + i).toNat
        else min i.toNat l.length) ++
      l.drop (if i < 0 then ((l.length : ℤ) + i).toNat
        else min i.toNat l.length) := by
    rw [List.take_append_drop]
    exact h
  rcases List.mem_append.mp h2 with h3 | h3
  · exact List.mem_append.mpr (Or.inl h3)
  · exact List.mem_append.mpr (Or.inr (List.mem_cons_of_mem a h3))

theorem keepRecent_bound (l : List Message) :
    ∀ (r : ℤ) (comp : List Message), 0 ≤ r →
      (tokenSum (keepRecent l r comp) : ℤ) ≤ (tokenSum comp : ℤ) + r := by
  induction l with
  | nil =>
    intro r comp hr
    unfold keepRecent
    omega
  | cons m ms ih =>
    intro r comp hr
    unfold keepRecent
    by_cases ht : (tokenOf m : ℤ) ≤ r
    · rw [if_pos ht]
      have h2 := ih (r - (tokenOf m : ℤ))
        (pyInsert comp (-(comp.countP (fun x => x.role != "system") : ℤ)) m)
        (by omega)
      rw [tokenSum_pyInsert] at h2
      push_cast at h2 ⊢
      linarith
    · rw [if_neg ht]
      omega

theorem keepRecent_mem (l : List Message) :
    ∀ (r : ℤ) (comp : List Message) (b : Message), b ∈ comp →
      b ∈ keepRecent l r comp := by
  induction l with
  | nil =>
    intro r comp b h
    exact h
  | cons m ms ih =>
    intro r comp b h
    unfold keepRecent
    by_cases ht : (tokenOf m : ℤ) ≤ r
    · rw [if_pos ht]
      exact ih _ _ b (mem_pyInsert comp _ m b h)
    · rw [if_neg ht]
      exact h

theorem compress_rest_bound (maxLen : ℤ) (compressed0 rest : List Message)
    (h0 : (tokenSum compressed0 : ℤ) ≤ maxLen) :
    (tokenSum (compress_rest maxLen compressed0 rest) : ℤ) ≤
      maxLen + (tokenOf summary_msg : ℤ) := by
  unfold compress_rest
  dsimp only
  have hb := keepRecent_bound rest.reverse (maxLen - (tokenSum compressed0 : ℤ))
    compressed0 (by omega)
  split
  · split
    · split
      · rw [tokenSum_pyInsert]
        push_cast
        push_cast at hb
        linarith
      · rw [tokenSum_pyInsert]
        push_cast
        push_cast at hb
        linarith
    · rw [tokenSum_pyInsert]
      push_cast
      push_cast at hb
      linarith
  · have hpos : (0 : ℤ) ≤ (tokenOf summary_msg : ℤ) := by positivity
    omega

theorem compress_rest_mem (maxLen : ℤ) (compressed0 rest : List Message)
    (b : Message) (h : b ∈ compressed0) :
    b ∈ compress_rest maxLen compressed0 rest := by
  unfold compress_rest
  dsimp only
  have hmem := keepRecent_mem rest.reverse (maxLen - (tokenSum compressed0 : ℤ))
    compressed0 b h
  split
  · split
    · split
      · exact mem_pyInsert _ _ _ b hmem
      · exact mem_pyInsert _ _ _ b hmem
    · exact mem_pyInsert _ _ _ b hmem
  · exact hmem

/-- The history of the C5 counterexamples: a short system head, a long
middle message that cannot be kept, and a short recent message that can. -/
def c5_msgs : List Message :=
  [⟨"system", "S"⟩, ⟨"user", String.mk (List.replicate 120 'a')⟩, ⟨"user", "hello"⟩]

/-- A second history whose system head alone exceeds the limit. -/
def c5b_msgs : List Message :=
  [⟨"system", String.mk (List.replicate 200 'a')⟩, ⟨"user", "hello"⟩]

/-- C5 counterexample: the claim fails on both conjuncts at context limit 50.
On `c5_msgs` (54 tokens) compression keeps the recent user message but
inserts it *before* the system head and adds no summary, so the output's
first message has role `user`, not `system`.  On `c5b_msgs` the oversized
system head is kept unconditionally, so the output's estimated token count
(58) exceeds the limit. -/
theorem compress_context_counterexample :
    ((tokenSum c5_msgs : ℤ) > 50 ∧
      c5_msgs.head?.map (fun m => m.role) = some "system" ∧
      ¬ ((compress_context 50 c5_msgs).head?.map (fun m => m.role) = some "system")) ∧
    ((tokenSum c5b_msgs : ℤ) > 50 ∧
      c5b_msgs.head?.map (fun m => m.role) = some "system" ∧
      ¬ ((tokenSum (compress_context 50 c5b_msgs) : ℤ) ≤ 50)) := by
  decide

/-- C5 amended: for a nonnegative context limit and a history whose estimated
token count exceeds it, the compressed output's estimated token count is at
most the limit plus the tokens of the synthetic summary note, provided the
leading system message (when present) itself fits the limit; and a leading
system message is always still a member of the compressed output (the source
places it last, not first). -/
theorem compress_context_amended (maxLen : ℤ) (msgs : List Message)
    (hpos : 0 ≤ maxLen)
    (hover : (tokenSum msgs : ℤ) > maxLen)
    (hsys : ∀ m0 tl, msgs = m0 :: tl → m0.role = "system" →
      (tokenOf m0 : ℤ) ≤ maxLen) :
    (tokenSum (compress_context maxLen msgs) : ℤ) ≤
      maxLen + (tokenOf summary_msg : ℤ) ∧
    (∀ m0 tl, msgs = m0 :: tl → m0.role = "system" →
      m0 ∈ compress_context maxLen msgs) := by
  cases msgs with
  | nil =>
    constructor
    · have hpos2 : (0 : ℤ) ≤ (tokenOf summary_msg : ℤ) := by positivity
      simp [compress_context, tokenSum]
      omega
    · intro m0 tl heq
      cases heq
  | cons m0 tl =>
    simp only [compress_context]
    rw [if_neg (not_le.mpr hover)]
    by_cases hrole : m0.role = "system"
    · rw [if_pos hrole]
      have hfit : (tokenSum [m0] : ℤ) ≤ maxLen := by
        have := hsys m0 tl rfl hrole
        simpa [tokenSum, tokenOf] using this
      constructor
      · exact compress_rest_bound maxLen [m0] tl hfit
      · intro m1 tl1 heq _
        cases heq
        exact compress_rest_mem maxLen [m0] tl m0 (by simp)
    · rw [if_neg hrole]
      constructor
      · exact compress_rest_bound maxLen [] (m0 :: tl) (by simpa [tokenSum] using hpos)
      · intro m1 tl1 heq hrole1
        cases heq
        exact absurd hrole1 hrole

/-- C5 witness: the amended statement applied to the concrete history
`c5_msgs` at limit 50. -/
theorem compress_context_amended_witness :
    (tokenSum (compress_context 50 c5_msgs) : ℤ) ≤
      50 + (tokenOf summary_msg : ℤ) ∧
    (∀ m0 tl, c5_msgs = m0 :: tl → m0.role = "system" →
      m0 ∈ compress_context 50 c5_msgs) :=
  compress_context_amended 50 c5_msgs (by decide) (by decide)
    (by intro m0 tl heq hrole; cases heq; decide)
